import Mathlib

/-!
Verification of the openSourceHealthAnalysis collector and merger.

The repository has two Python modules:
* `src/api_fetch.py` — the Collector: rate-limit guard, paginated issue and
  commit fetching, per-repository snapshots, a combined snapshot.
* `src/write_to_all.py` — the Merger: loads snapshot JSON files and combines
  them into one document.

This file gives a shallow embedding of both modules and settles the frozen
claims about them.  Network responses are modelled as explicit values
(`PageResponse`, `RateResponse`, `InfoResponse`); the pagination loops are
modelled with a fuel parameter that bounds the number of page requests, so a
`some` result with fuel `f` means the loop terminated after at most `f`
requests, and `none` means the fuel was exhausted.  Python's arbitrary
integers appear as `Int`; Python's list slice `xs[:n]` is `pySlice`.
JSON documents are the inductive `Json`; the standard library serializer
`json.dump(..., indent=2, ensure_ascii=False)` and parser `json.load` are
not part of the repository sources and are modelled from the spec
(`jsonDump` / `jsonLoad` below).
-/

/-- A JSON document: the data shapes named by the spec (mappings, sequences,
strings, numbers, booleans, null).  Numbers are modelled as exact integers. -/
inductive Json where
  | null : Json
  | bool (b : Bool) : Json
  | num (n : Int) : Json
  | str (s : String) : Json
  | arr (elements : List Json) : Json
  | obj (members : List (String × Json)) : Json

/-! ## Model of the standard-library JSON codec

Modelled from the spec: `save_data` "serializes the data as indented,
non-ASCII-escaped structured text" (Python `json.dump` with `indent=2`,
`ensure_ascii=False`); reading a snapshot back is Python `json.load`.
Neither function's code is under `src/`, so both are modelled here:
`jsonDump` renders with two-space indentation, `",\n"` element separators
and `": "` key separators, escaping only `"`, `\` and control characters;
`jsonLoad` is a whitespace-tolerant JSON reader for the same grammar. -/

/-- Indentation: `n` spaces. -/
def pad (n : Nat) : List Char := List.replicate n ' '

/-- Whitespace recognizer for the reader. -/
def isWsCh (c : Char) : Bool := c = ' ' || c = '\n' || c = '\t' || c = '\r'

/-- Drop leading whitespace. -/
def skipWs : List Char → List Char
  | [] => []
  | c :: cs => if isWsCh c then skipWs cs else c :: cs

/-- Decimal digit recognizer. -/
def isDigitCh (c : Char) : Bool := 48 ≤ c.toNat && c.toNat ≤ 57

/-- Numeric value of a decimal digit character. -/
def digitVal (c : Char) : Nat := c.toNat - 48

/-- The decimal digit character for `k < 10`. -/
def digitChar (k : Nat) : Char := Char.ofNat (48 + k)

/-- Decimal digits of a natural number, most significant first. -/
def natChars (n : Nat) : List Char :=
  if n < 10 then [digitChar n] else natChars (n / 10) ++ [digitChar (n % 10)]
termination_by n
decreasing_by exact Nat.div_lt_self (by omega) (by omega)

/-- Python `repr` of an integer: optional minus sign, then decimal digits. -/
def intChars (n : Int) : List Char :=
  if n < 0 then '-' :: natChars (-n).toNat else natChars n.toNat

/-- Lowercase hexadecimal digit character for `k < 16`. -/
def hexChar (k : Nat) : Char :=
  if k < 10 then Char.ofNat (48 + k) else Char.ofNat (87 + k)

/-- Value of a hexadecimal digit character, if it is one. -/
def hexValCh (c : Char) : Option Nat :=
  if 48 ≤ c.toNat && c.toNat ≤ 57 then some (c.toNat - 48)
  else if 97 ≤ c.toNat && c.toNat ≤ 102 then some (c.toNat - 87)
  else if 65 ≤ c.toNat && c.toNat ≤ 70 then some (c.toNat - 55)
  else none

/-- One character of string content, escaped as Python's `json.dump` does with
`ensure_ascii=False`: short escapes for `"`, `\`, backspace, tab, newline,
form feed and carriage return, `\u00xx` for the remaining control characters,
and every other character (ASCII or not) written literally. -/
def escapeChar (c : Char) : List Char :=
  if c = '\x22' then ['\\', '\x22']
  else if c = '\\' then ['\\', '\\']
  else if c = '\x08' then ['\\', 'b']
  else if c = '\x09' then ['\\', 't']
  else if c = '\x0a' then ['\\', 'n']
  else if c = '\x0c' then ['\\', 'f']
  else if c = '\x0d' then ['\\', 'r']
  else if c.toNat < 32 then
    ['\\', 'u', '0', '0', hexChar (c.toNat / 16), hexChar (c.toNat % 16)]
  else [c]

/-- A whole string body, escaped character by character. -/
def escList : List Char → List Char
  | [] => []
  | c :: cs => escapeChar c ++ escList cs

mutual

/-- Render a JSON value at indentation level `ind`, as Python's
`json.dump(value, indent=2, ensure_ascii=False)` lays it out. -/
def dumpVal : Json → Nat → List Char
  | Json.null, _ => ['n', 'u', 'l', 'l']
  | Json.bool true, _ => ['t', 'r', 'u', 'e']
  | Json.bool false, _ => ['f', 'a', 'l', 's', 'e']
  | Json.num n, _ => intChars n
  | Json.str s, _ => '\x22' :: (escList s.data ++ ['\x22'])
  | Json.arr [], _ => ['[', ']']
  | Json.arr (x :: xs), ind =>
    '[' :: '\n' :: (pad (ind + 2) ++ dumpVal x (ind + 2) ++ dumpArrRest xs ind)
  | Json.obj [], _ => ['\x7b', '\x7d']
  | Json.obj ((k, v) :: kvs), ind =>
    '\x7b' :: '\n' :: (pad (ind + 2) ++ dumpMember k v (ind + 2) ++ dumpObjRest kvs ind)

/-- One `"key": value` member at indentation level `ind`. -/
def dumpMember (k : String) (v : Json) (ind : Nat) : List Char :=
  '\x22' :: (escList k.data ++ ('\x22' :: ':' :: ' ' :: dumpVal v ind))

/-- The remaining array elements after the first, then the closing bracket on
its own line at the enclosing indentation. -/
def dumpArrRest : List Json → Nat → List Char
  | [], ind => '\n' :: (pad ind ++ [']'])
  | x :: xs, ind =>
    ',' :: '\n' :: (pad (ind + 2) ++ dumpVal x (ind + 2) ++ dumpArrRest xs ind)

/-- The remaining object members after the first, then the closing brace. -/
def dumpObjRest : List (String × Json) → Nat → List Char
  | [], ind => '\n' :: (pad ind ++ ['\x7d'])
  | (k, v) :: kvs, ind =>
    ',' :: '\n' :: (pad (ind + 2) ++ dumpMember k v (ind + 2) ++ dumpObjRest kvs ind)

end

/-- The serialized text `json.dump(v, f, indent=2, ensure_ascii=False)` writes. -/
def jsonDump (v : Json) : List Char := dumpVal v 0

/-- String content after the opening quote: characters up to the closing
quote, undoing the escapes `json.load` accepts. -/
def parseStrRest : List Char → Option (List Char × List Char)
  | [] => none
  | c :: rest =>
    if c = '\x22' then some ([], rest)
    else if c = '\\' then
      match rest with
      | [] => none
      | e :: rest2 =>
        if e = 'u' then
          match rest2 with
          | a :: b :: c3 :: d :: rest3 =>
            (match hexValCh a, hexValCh b, hexValCh c3, hexValCh d with
             | some va, some vb, some vc, some vd =>
               (parseStrRest rest3).map
                 (fun p => (Char.ofNat (((va * 16 + vb) * 16 + vc) * 16 + vd) :: p.1, p.2))
             | _, _, _, _ => none)
          | _ => none
        else if e = '\x22' then (parseStrRest rest2).map (fun p => ('\x22' :: p.1, p.2))
        else if e = '\\' then (parseStrRest rest2).map (fun p => ('\\' :: p.1, p.2))
        else if e = '/' then (parseStrRest rest2).map (fun p => ('/' :: p.1, p.2))
        else if e = 'b' then (parseStrRest rest2).map (fun p => ('\x08' :: p.1, p.2))
        else if e = 't' then (parseStrRest rest2).map (fun p => ('\x09' :: p.1, p.2))
        else if e = 'n' then (parseStrRest rest2).map (fun p => ('\x0a' :: p.1, p.2))
        else if e = 'f' then (parseStrRest rest2).map (fun p => ('\x0c' :: p.1, p.2))
        else if e = 'r' then (parseStrRest rest2).map (fun p => ('\x0d' :: p.1, p.2))
        else none
    else (parseStrRest rest).map (fun p => (c :: p.1, p.2))

/-- A maximal run of decimal digits and the remainder. -/
def grabDigits : List Char → List Char × List Char
  | [] => ([], [])
  | c :: cs =>
    if isDigitCh c then
      ((grabDigits cs).1.cons c, (grabDigits cs).2)
    else ([], c :: cs)

/-- The natural number a digit run denotes. -/
def digitsNat (ds : List Char) : Nat :=
  ds.foldl (fun a c => a * 10 + digitVal c) 0

/-- An integer literal: optional minus sign, then at least one digit.
(The repository only ever serializes exact integers, so fractions and
exponents never arise in its round trips.) -/
def parseNumber (s : List Char) : Option (Json × List Char) :=
  match s with
  | [] => none
  | c :: rest =>
    if c = '-' then
      match grabDigits rest with
      | ([], _) => none
      | (ds, r) => some (Json.num (-(digitsNat ds : Int)), r)
    else
      match grabDigits (c :: rest) with
      | ([], _) => none
      | (ds, r) => some (Json.num (digitsNat ds : Int), r)

mutual

/-- Read one JSON value, whitespace-tolerant; `fuel` bounds the recursion. -/
def parseValue : Nat → List Char → Option (Json × List Char)
  | 0, _ => none
  | fuel + 1, s =>
    match skipWs s with
    | [] => none
    | c :: rest =>
      if c = 'n' then
        match rest with
        | 'u' :: 'l' :: 'l' :: r => some (Json.null, r)
        | _ => none
      else if c = 't' then
        match rest with
        | 'r' :: 'u' :: 'e' :: r => some (Json.bool true, r)
        | _ => none
      else if c = 'f' then
        match rest with
        | 'a' :: 'l' :: 's' :: 'e' :: r => some (Json.bool false, r)
        | _ => none
      else if c = '\x22' then
        (parseStrRest rest).map (fun p => (Json.str (String.mk p.1), p.2))
      else if c = '[' then
        match skipWs rest with
        | [] => none
        | c2 :: r =>
          if c2 = ']' then some (Json.arr [], r)
          else (parseElems fuel (c2 :: r)).map (fun p => (Json.arr p.1, p.2))
      else if c = '\x7b' then
        match skipWs rest with
        | [] => none
        | c2 :: r =>
          if c2 = '\x7d' then some (Json.obj [], r)
          else (parseMembers fuel (c2 :: r)).map (fun p => (Json.obj p.1, p.2))
      else parseNumber (c :: rest)

/-- One or more comma-separated array elements, then the closing bracket. -/
def parseElems : Nat → List Char → Option (List Json × List Char)
  | 0, _ => none
  | fuel + 1, s =>
    match parseValue fuel s with
    | none => none
    | some (v, r) =>
      match skipWs r with
      | ',' :: r2 => (parseElems fuel r2).map (fun p => (v :: p.1, p.2))
      | ']' :: r2 => some ([v], r2)
      | _ => none

/-- One or more comma-separated `"key": value` members, then the brace. -/
def parseMembers : Nat → List Char → Option (List (String × Json) × List Char)
  | 0, _ => none
  | fuel + 1, s =>
    match skipWs s with
    | [] => none
    | q :: rest =>
      if q = '\x22' then
        match parseStrRest rest with
        | none => none
        | some (k, r1) =>
          match skipWs r1 with
          | ':' :: r2 =>
            (match parseValue fuel r2 with
             | none => none
             | some (v, r3) =>
               match skipWs r3 with
               | ',' :: r4 =>
                 (parseMembers fuel r4).map
                   (fun p => ((String.mk k, v) :: p.1, p.2))
               | '\x7d' :: r4 => some ([(String.mk k, v)], r4)
               | _ => none)
          | _ => none
      else none

end

/-- Python `json.load` on a whole file: one value, then only whitespace. -/
def jsonLoad (s : List Char) : Option Json :=
  match parseValue (s.length + 1) s with
  | none => none
  | some (v, r) => if (skipWs r).isEmpty then some v else none

/-! ## Embedding of `src/api_fetch.py` -/

namespace ApiFetch

/-- One element of a paginated API response body (an issue or a commit).
The only field the program inspects is the presence of a `pull_request`
key, held here as the flag `pullRequest`; `itemId` stands for the rest of
the payload, which is passed through unmodified. -/
structure Item where
  itemId : Nat
  pullRequest : Bool
deriving DecidableEq

/-- The filter `'pull_request' not in issue` from `fetch_issues`. -/
def isRealIssue (i : Item) : Bool := !i.pullRequest

/-- A paginated endpoint's response: HTTP status and the decoded item array
(`response.json()`).  The program treats exactly status 200 as success. -/
structure PageResponse where
  status : Nat
  items : List Item
deriving DecidableEq

/-- The `/rate_limit` response: status and the decoded
`resources.core` fields. -/
structure RateResponse where
  status : Nat
  remaining : Nat
  limitTotal : Nat
  reset : Nat
deriving DecidableEq

/-- The single repository-metadata response used by `fetch_repo_info`. -/
structure InfoResponse where
  status : Nat
  body : Json

/-- Python's list slice `xs[:n]` for an arbitrary integer bound `n`:
a nonnegative `n` keeps the first `n` elements, a negative `n` drops the
last `-n`. -/
def pySlice {α : Type} (xs : List α) (n : Int) : List α :=
  if 0 ≤ n then xs.take n.toNat else xs.take (xs.length - (-n).toNat)

/-- The configured repository list (`REPOSITORIES` in `api_fetch.py`). -/
def REPOSITORIES : List String :=
  ["pandas-dev/pandas", "numpy/numpy", "scikit-learn/scikit-learn",
   "apache/airflow", "mlflow/mlflow"]

/-- The function `check_rate_limit`: on a 200 response return the reported
`core['remaining']`, otherwise return 0. -/
def check_rate_limit (r : RateResponse) : Nat :=
  if r.status = 200 then r.remaining else 0

/-- The `while len(issues) < max_issues` loop of `fetch_issues`:
`pages` maps a 1-based page number to the response for that page, `fuel`
bounds how many page requests may still be made (`none` = fuel exhausted
before the loop finished). -/
def fetchIssuesGo (pages : Nat → PageResponse) (maxIssues : Int)
    (fuel : Nat) (issues : List Item) (page : Nat) : Option (List Item) :=
  if (issues.length : Int) < maxIssues then
    match fuel with
    | 0 => none
    | fuel + 1 =>
      if (pages page).status = 200 then
        if (pages page).items.isEmpty then some (pySlice issues maxIssues)
        else
          if maxIssues ≤ (((issues ++ (pages page).items.filter isRealIssue)).length : Int) then
            some (pySlice (issues ++ (pages page).items.filter isRealIssue) maxIssues)
          else
            fetchIssuesGo pages maxIssues fuel
              (issues ++ (pages page).items.filter isRealIssue) (page + 1)
      else some (pySlice issues maxIssues)
  else some (pySlice issues maxIssues)

/-- The function `fetch_issues(repo, max_issues)`: start at page 1 with no issues and
return `issues[:max_issues]` when the loop ends. -/
def fetch_issues (pages : Nat → PageResponse) (maxIssues : Int) (fuel : Nat) :
    Option (List Item) :=
  fetchIssuesGo pages maxIssues fuel [] 1

/-- The `while len(commits) < max_commits` loop of `fetch_commits`; unlike
the issues loop it also breaks after a page shorter than `per_page = 100`. -/
def fetchCommitsGo (pages : Nat → PageResponse) (maxCommits : Int)
    (fuel : Nat) (commits : List Item) (page : Nat) : Option (List Item) :=
  if (commits.length : Int) < maxCommits then
    match fuel with
    | 0 => none
    | fuel + 1 =>
      if (pages page).status = 200 then
        if (pages page).items.isEmpty then some (pySlice commits maxCommits)
        else
          if (pages page).items.length < 100 then
            some (pySlice (commits ++ (pages page).items) maxCommits)
          else
            fetchCommitsGo pages maxCommits fuel (commits ++ (pages page).items) (page + 1)
      else some (pySlice commits maxCommits)
  else some (pySlice commits maxCommits)

/-- The function `fetch_commits(repo, max_commits)`. -/
def fetch_commits (pages : Nat → PageResponse) (maxCommits : Int) (fuel : Nat) :
    Option (List Item) :=
  fetchCommitsGo pages maxCommits fuel [] 1

/-- The function `fetch_repo_info`: the decoded body on a 200 response, `None` otherwise. -/
def fetch_repo_info (r : InfoResponse) : Option Json :=
  if r.status = 200 then some r.body else none

/-- The file content `save_data` writes for a snapshot (directory handling
and the file system itself are outside the model). -/
def save_data (v : Json) : List Char := jsonDump v

/-- The simulated page source for a finite list of successful pages:
page `n` (1-based) carries status 200 and the `n`-th list, with every page
past the end empty. -/
def pagesOf (ps : List (List Item)) : Nat → PageResponse :=
  fun n => PageResponse.mk 200 (ps.getD (n - 1) [])

/-- Reference value for the issues loop on all-successful pages: the
pull-request-filtered contents of the pages before the first empty page,
concatenated in page order. -/
def issueItems : List (List Item) → List Item
  | [] => []
  | p :: ps => if p.isEmpty then [] else p.filter isRealIssue ++ issueItems ps

/-- Reference value for the commits loop on all-successful pages: the pages
up to and including the first one shorter than `per_page = 100` (and before
the first empty page), concatenated in page order. -/
def commitItems : List (List Item) → List Item
  | [] => []
  | p :: ps => if p.isEmpty then [] else if p.length < 100 then p else p ++ commitItems ps

/-- Executable test that a list of page sizes is strictly decreasing. -/
def strictlyDecreasingSizes : List Nat → Bool
  | [] => true
  | [_] => true
  | a :: b :: t => decide (b < a) && strictlyDecreasingSizes (b :: t)

/-- Everything `main` consumes from its environment in one collection run:
the pre-flight rate response, the rate response observed after finishing
each repository, the metadata response per repository, the issue and commit
lists each repository's fetches produce, the per-repository collection
times, and the run timestamp.  (The fetch results are abstracted to their
values because the orchestration claims never inspect how they were
paginated.) -/
structure CollectEnv where
  preRate : RateResponse
  rateAfter : String → RateResponse
  infoResp : String → InfoResponse
  issuesFor : String → List Item
  commitsFor : String → List Item
  timeFor : String → String
  timestamp : String

/-- The `repo_data` dictionary `main` assembles for one repository. -/
structure RepoSnapshot where
  repository : String
  collectedAt : String
  info : Option Json
  issues : List Item
  commits : List Item

/-- One `save_data` call made by `main`: either a per-repository snapshot
file or the combined `all_repos` file. -/
inductive WriteEvent where
  | perRepo (filename : String) (snap : RepoSnapshot)
  | combined (filename : String) (allData : List (String × RepoSnapshot))

/-- Recognizer for the combined-snapshot write. -/
def isCombinedEv : WriteEvent → Bool
  | WriteEvent.combined _ _ => true
  | _ => false

/-- Recognizer for a per-repository snapshot write. -/
def isPerRepoEv : WriteEvent → Bool
  | WriteEvent.perRepo _ _ => true
  | _ => false

/-- The snapshot `main` builds for repository `r`. -/
def repoData (env : CollectEnv) (r : String) : RepoSnapshot :=
  { repository := r
    collectedAt := env.timeFor r
    info := fetch_repo_info (env.infoResp r)
    issues := env.issuesFor r
    commits := env.commitsFor r }

/-- The `for repo in REPOSITORIES` loop of `main`: returns the write events
it performs, in order, and the `all_data` mapping it accumulates.  After
each repository it re-checks the rate limit and breaks below 50. -/
def collectLoop (env : CollectEnv) : List String → List WriteEvent × List (String × RepoSnapshot)
  | [] => ([], [])
  | r :: rest =>
    if check_rate_limit (env.rateAfter r) < 50 then
      ([WriteEvent.perRepo (r.replace "/" "_" ++ "_" ++ env.timestamp ++ ".json")
          (repoData env r)],
       [(r, repoData env r)])
    else
      (WriteEvent.perRepo (r.replace "/" "_" ++ "_" ++ env.timestamp ++ ".json")
          (repoData env r) :: (collectLoop env rest).1,
       (r, repoData env r) :: (collectLoop env rest).2)

/-- The `all_data` mapping accumulated by the run (insertion order). -/
def allData (env : CollectEnv) : List (String × RepoSnapshot) :=
  (collectLoop env REPOSITORIES).2

/-- The function `main` of `api_fetch.py`, as the ordered list of files it writes:
abort with no writes if the pre-flight rate check reports fewer than 100
remaining; otherwise run the per-repository loop and finally write the
combined snapshot once. -/
def main (env : CollectEnv) : List WriteEvent :=
  if check_rate_limit env.preRate < 100 then []
  else
    (collectLoop env REPOSITORIES).1
      ++ [WriteEvent.combined ("all_repos_" ++ env.timestamp ++ ".json") (allData env)]

end ApiFetch

/-! ## Embedding of `src/write_to_all.py` -/

namespace WriteToAll

/-- A loaded snapshot file's top-level JSON object, as key/value pairs in
insertion order (Python dictionaries preserve insertion order). -/
abbrev MData := List (String × Json)

/-- The fixed key list `KEYS` of `write_to_all.py`. -/
def KEYS : List String :=
  ["pandas-dev/pandas", "numpy/numpy", "scikit-learn/scikit-learn",
   "apache/airflow", "mlflow/mlflow"]

/-- The value left in the loop variable `key` after `for key in KEYS`
finishes: the last element of `KEYS`. -/
def lastKey : String := KEYS.getLastD ""

/-- Python `key in data` / `data[key]` on a dictionary. -/
def lookupKey (kvs : MData) (k : String) : Option Json :=
  match kvs with
  | [] => none
  | (k0, v) :: rest => if k0 = k then some v else lookupKey rest k

/-- Python `d[k] = v` on a dictionary: replace in place if present,
append otherwise. -/
def setKey (kvs : MData) (k : String) (v : Json) : MData :=
  match kvs with
  | [] => [(k, v)]
  | (k0, v0) :: rest => if k0 = k then (k0, v) :: rest else (k0, v0) :: setKey rest k v

/-- The `for key in KEYS: if key in data: data[key]['repository'] = key`
loop of `main`.  When `data[key]` is not a mapping the item assignment
raises a `TypeError`, which the surrounding `try` catches, so the whole
file is skipped: that is the `none` result. -/
def stampKeys (data : MData) : List String → Option MData
  | [] => some data
  | k :: ks =>
    match lookupKey data k with
    | none => stampKeys data ks
    | some (Json.obj kvs) =>
      stampKeys (setKey data k (Json.obj (setKey kvs "repository" (Json.str k)))) ks
    | some _ => none

/-- One iteration of the `for json_file in json_files` loop, acting on the
accumulated `combined_data`: a file that failed to parse (`none`) or whose
stamping raised is skipped; otherwise `combined_data[key] = data` runs with
`key` still bound to the last element of `KEYS`. -/
def processFile (combined : MData) (file : Option MData) : MData :=
  match file with
  | none => combined
  | some data =>
    match stampKeys data KEYS with
    | none => combined
    | some data2 => setKey combined lastKey (Json.obj data2)

/-- The `combined_data` dictionary after the file loop of `main`, given the
parse result of each discovered file in directory-listing order. -/
def combineFiles (files : List (Option MData)) : MData :=
  files.foldl processFile []

/-- The stamped content of one file, if parsing and stamping both succeed. -/
def fileResult (file : Option MData) : Option Json :=
  match file with
  | none => none
  | some data =>
    match stampKeys data KEYS with
    | none => none
    | some data2 => some (Json.obj data2)

/-- The stamped content of the last file that loads successfully. -/
def lastGood (files : List (Option MData)) : Option Json :=
  files.foldl
    (fun acc f =>
      match fileResult f with
      | some j => some j
      | none => acc) none

/-- The file content written by the merger's `save_data`. -/
def save_data (v : Json) : List Char := jsonDump v

/-- The function `main` of `write_to_all.py`: with no JSON files it exits writing
nothing; otherwise it writes the combined dictionary once under a
run-timestamped filename. -/
def main (timestamp : String) (files : List (Option MData)) : Option (String × MData) :=
  match files with
  | [] => none
  | _ :: _ => some ("combined_data_" ++ timestamp ++ ".json", combineFiles files)

end WriteToAll

/-! ## Helper lemmas: Python slicing -/

namespace ApiFetch

theorem pySlice_nil {α : Type} (n : Int) : pySlice ([] : List α) n = [] := by
  unfold pySlice
  split <;> simp

theorem pySlice_eq_self {α : Type} {xs : List α} {n : Int}
    (h : (xs.length : Int) ≤ n) : pySlice xs n = xs := by
  have h0 : 0 ≤ n := le_trans (by positivity) h
  unfold pySlice
  rw [if_pos h0]
  exact List.take_of_length_le (by omega)

theorem pySlice_length_le {α : Type} {xs : List α} {n : Int}
    (h : 0 ≤ n) : (pySlice xs n).length ≤ n.toNat := by
  unfold pySlice
  rw [if_pos h, List.length_take]
  omega

theorem pySlice_append_of_ge {α : Type} {xs ys : List α} {n : Int}
    (h0 : 0 ≤ n) (h : n ≤ (xs.length : Int)) :
    pySlice (xs ++ ys) n = pySlice xs n := by
  unfold pySlice
  rw [if_pos h0, if_pos h0]
  exact List.take_append_of_le_length (by omega)

theorem mem_pySlice {α : Type} {xs : List α} {n : Int} {a : α}
    (h : a ∈ pySlice xs n) : a ∈ xs := by
  unfold pySlice at h
  split at h <;> exact List.mem_of_mem_take h

/-! ## Helper lemmas: the pagination loops -/

theorem issuesGo_zero (pages : Nat → PageResponse) (maxIssues : Int)
    (issues : List Item) (page : Nat) :
    fetchIssuesGo pages maxIssues 0 issues page
      = if (issues.length : Int) < maxIssues then none
        else some (pySlice issues maxIssues) := by
  rw [fetchIssuesGo]

theorem issuesGo_succ (pages : Nat → PageResponse) (maxIssues : Int)
    (f : Nat) (issues : List Item) (page : Nat) :
    fetchIssuesGo pages maxIssues (f + 1) issues page
      = if (issues.length : Int) < maxIssues then
          (if (pages page).status = 200 then
            if (pages page).items.isEmpty then some (pySlice issues maxIssues)
            else
              if maxIssues ≤ (((issues ++ (pages page).items.filter isRealIssue)).length : Int) then
                some (pySlice (issues ++ (pages page).items.filter isRealIssue) maxIssues)
              else
                fetchIssuesGo pages maxIssues f
                  (issues ++ (pages page).items.filter isRealIssue) (page + 1)
          else some (pySlice issues maxIssues))
        else some (pySlice issues maxIssues) := by
  rw [fetchIssuesGo]

theorem commitsGo_zero (pages : Nat → PageResponse) (maxCommits : Int)
    (commits : List Item) (page : Nat) :
    fetchCommitsGo pages maxCommits 0 commits page
      = if (commits.length : Int) < maxCommits then none
        else some (pySlice commits maxCommits) := by
  rw [fetchCommitsGo]

theorem commitsGo_succ (pages : Nat → PageResponse) (maxCommits : Int)
    (f : Nat) (commits : List Item) (page : Nat) :
    fetchCommitsGo pages maxCommits (f + 1) commits page
      = if (commits.length : Int) < maxCommits then
          (if (pages page).status = 200 then
            if (pages page).items.isEmpty then some (pySlice commits maxCommits)
            else
              if (pages page).items.length < 100 then
                some (pySlice (commits ++ (pages page).items) maxCommits)
              else
                fetchCommitsGo pages maxCommits f (commits ++ (pages page).items) (page + 1)
          else some (pySlice commits maxCommits))
        else some (pySlice commits maxCommits) := by
  rw [fetchCommitsGo]

theorem issuesGo_noPR :
    ∀ (fuel : Nat) (pages : Nat → PageResponse) (maxIssues : Int)
      (issues : List Item) (page : Nat) (res : List Item),
      (∀ i ∈ issues, i.pullRequest = false) →
      fetchIssuesGo pages maxIssues fuel issues page = some res →
      ∀ i ∈ res, i.pullRequest = false := by
  intro fuel
  induction fuel with
  | zero =>
    intro pages maxIssues issues page res hacc h i hi
    rw [issuesGo_zero] at h
    split at h
    · exact absurd h (by simp)
    · cases h
      exact hacc i (mem_pySlice hi)
  | succ f ih =>
    intro pages maxIssues issues page res hacc h i hi
    have hacc2 : ∀ j ∈ issues ++ (pages page).items.filter isRealIssue,
        j.pullRequest = false := by
      intro j hj
      rcases List.mem_append.mp hj with hj1 | hj2
      · exact hacc j hj1
      · have := (List.mem_filter.mp hj2).2
        simpa [isRealIssue] using this
    rw [issuesGo_succ] at h
    split at h
    · split at h
      · split at h
        · cases h
          exact hacc i (mem_pySlice hi)
        · split at h
          · cases h
            exact hacc2 i (mem_pySlice hi)
          · exact ih pages maxIssues _ (page + 1) res hacc2 h i hi
      · cases h
        exact hacc i (mem_pySlice hi)
    · cases h
      exact hacc i (mem_pySlice hi)

theorem issuesGo_length :
    ∀ (fuel : Nat) (pages : Nat → PageResponse) (maxIssues : Int)
      (issues : List Item) (page : Nat) (res : List Item),
      0 ≤ maxIssues →
      fetchIssuesGo pages maxIssues fuel issues page = some res →
      res.length ≤ maxIssues.toNat := by
  intro fuel
  induction fuel with
  | zero =>
    intro pages maxIssues issues page res h0 h
    rw [issuesGo_zero] at h
    split at h
    · exact absurd h (by simp)
    · cases h
      exact pySlice_length_le h0
  | succ f ih =>
    intro pages maxIssues issues page res h0 h
    rw [issuesGo_succ] at h
    split at h
    · split at h
      · split at h
        · cases h
          exact pySlice_length_le h0
        · split at h
          · cases h
            exact pySlice_length_le h0
          · exact ih pages maxIssues _ (page + 1) res h0 h
      · cases h
        exact pySlice_length_le h0
    · cases h
      exact pySlice_length_le h0

/-- On a source of successful pages aligned with the list `rest` from
position `page` on, the issues loop returns the accumulator followed by the
filtered contents of the pages before the first empty one, sliced to the cap. -/
theorem issuesGo_src {maxIssues : Int} (h0 : 0 ≤ maxIssues) :
    ∀ (rest : List (List Item)) (pages : Nat → PageResponse) (fuel : Nat)
      (issues : List Item) (page : Nat),
      (∀ k, pages (page + k) = PageResponse.mk 200 (rest.getD k [])) →
      rest.length < fuel →
      fetchIssuesGo pages maxIssues fuel issues page
        = some (pySlice (issues ++ issueItems rest) maxIssues) := by
  intro rest
  induction rest with
  | nil =>
    intro pages fuel issues page hsrc hfuel
    obtain ⟨f, rfl⟩ : ∃ f, fuel = f + 1 := ⟨fuel - 1, by omega⟩
    have hp : pages page = PageResponse.mk 200 [] := by
      have := hsrc 0
      simpa using this
    rw [issuesGo_succ, hp]
    simp [issueItems]
  | cons p rest ih =>
    intro pages fuel issues page hsrc hfuel
    obtain ⟨f, rfl⟩ : ∃ f, fuel = f + 1 := ⟨fuel - 1, by omega⟩
    have hp : pages page = PageResponse.mk 200 p := by
      have := hsrc 0
      simpa using this
    rw [issuesGo_succ, hp]
    by_cases hlt : (issues.length : Int) < maxIssues
    · rw [if_pos hlt, if_pos rfl]
      by_cases hemp : p.isEmpty
      · have : p = [] := List.isEmpty_iff.mp hemp
        subst this
        simp [issueItems]
      · rw [if_neg (by simp [hemp])]
        have hitems : issueItems (p :: rest) = p.filter isRealIssue ++ issueItems rest := by
          rw [issueItems, if_neg (by simp [hemp])]
        by_cases hcap :
            maxIssues ≤ (((issues ++ (PageResponse.mk 200 p).items.filter isRealIssue)).length : Int)
        · rw [if_pos hcap]
          have : issues ++ issueItems (p :: rest)
              = (issues ++ p.filter isRealIssue) ++ issueItems rest := by
            rw [hitems]
            simp
          rw [this, pySlice_append_of_ge h0 hcap]
        · rw [if_neg hcap]
          have hsrc2 : ∀ k, pages (page + 1 + k) = PageResponse.mk 200 (rest.getD k []) := by
            intro k
            have := hsrc (k + 1)
            rw [show page + (k + 1) = page + 1 + k from by omega] at this
            simpa [List.getD_cons_succ] using this
          rw [ih pages f _ (page + 1) hsrc2 (by simp at hfuel; omega)]
          have : issues ++ issueItems (p :: rest)
              = (issues ++ p.filter isRealIssue) ++ issueItems rest := by
            rw [hitems]
            simp
          rw [this]
    · rw [if_neg hlt]
      have hge : maxIssues ≤ (issues.length : Int) := by omega
      rw [pySlice_append_of_ge h0 hge]

/-- The commits analogue of `issuesGo_src`: unfiltered pages, stopping also
at the first page shorter than `per_page = 100`. -/
theorem commitsGo_src {maxCommits : Int} (h0 : 0 ≤ maxCommits) :
    ∀ (rest : List (List Item)) (pages : Nat → PageResponse) (fuel : Nat)
      (commits : List Item) (page : Nat),
      (∀ k, pages (page + k) = PageResponse.mk 200 (rest.getD k [])) →
      rest.length < fuel →
      fetchCommitsGo pages maxCommits fuel commits page
        = some (pySlice (commits ++ commitItems rest) maxCommits) := by
  intro rest
  induction rest with
  | nil =>
    intro pages fuel commits page hsrc hfuel
    obtain ⟨f, rfl⟩ : ∃ f, fuel = f + 1 := ⟨fuel - 1, by omega⟩
    have hp : pages page = PageResponse.mk 200 [] := by
      have := hsrc 0
      simpa using this
    rw [commitsGo_succ, hp]
    simp [commitItems]
  | cons p rest ih =>
    intro pages fuel commits page hsrc hfuel
    obtain ⟨f, rfl⟩ : ∃ f, fuel = f + 1 := ⟨fuel - 1, by omega⟩
    have hp : pages page = PageResponse.mk 200 p := by
      have := hsrc 0
      simpa using this
    rw [commitsGo_succ, hp]
    by_cases hlt : (commits.length : Int) < maxCommits
    · rw [if_pos hlt, if_pos rfl]
      by_cases hemp : p.isEmpty
      · have : p = [] := List.isEmpty_iff.mp hemp
        subst this
        simp [commitItems]
      · rw [if_neg (by simp [hemp])]
        by_cases hshort : p.length < 100
        · rw [if_pos hshort]
          have hitems : commitItems (p :: rest) = p := by
            rw [commitItems, if_neg (by simp [hemp]), if_pos hshort]
          rw [hitems]
        · rw [if_neg hshort]
          have hitems : commitItems (p :: rest) = p ++ commitItems rest := by
            rw [commitItems, if_neg (by simp [hemp]), if_neg hshort]
          have hsrc2 : ∀ k, pages (page + 1 + k) = PageResponse.mk 200 (rest.getD k []) := by
            intro k
            have := hsrc (k + 1)
            rw [show page + (k + 1) = page + 1 + k from by omega] at this
            simpa [List.getD_cons_succ] using this
          rw [ih pages f _ (page + 1) hsrc2 (by simp at hfuel; omega)]
          have : commits ++ commitItems (p :: rest) = (commits ++ p) ++ commitItems rest := by
            rw [hitems]
            simp
          rw [this]
    · rw [if_neg hlt]
      have hge : maxCommits ≤ (commits.length : Int) := by omega
      rw [pySlice_append_of_ge h0 hge]

/-- The source `pagesOf ps` is aligned with `ps` from page 1 on. -/
theorem pagesOf_src (ps : List (List Item)) :
    ∀ k, pagesOf ps (1 + k) = PageResponse.mk 200 (ps.getD k []) := by
  intro k
  unfold pagesOf
  rw [Nat.add_sub_cancel_left]

end ApiFetch

namespace ApiFetch

theorem fetchIssues_nonpos (pages : Nat → PageResponse) {maxIssues : Int}
    (fuel : Nat) (h : maxIssues ≤ 0) :
    fetch_issues pages maxIssues fuel = some [] := by
  unfold fetch_issues
  have hc : ¬ (((([] : List Item)).length : Int) < maxIssues) := by
    simp only [List.length_nil, Nat.cast_zero, not_lt]
    exact h
  cases fuel with
  | zero => rw [issuesGo_zero, if_neg hc, pySlice_nil]
  | succ f => rw [issuesGo_succ, if_neg hc, pySlice_nil]

theorem fetchCommits_nonpos (pages : Nat → PageResponse) {maxCommits : Int}
    (fuel : Nat) (h : maxCommits ≤ 0) :
    fetch_commits pages maxCommits fuel = some [] := by
  unfold fetch_commits
  have hc : ¬ (((([] : List Item)).length : Int) < maxCommits) := by
    simp only [List.length_nil, Nat.cast_zero, not_lt]
    exact h
  cases fuel with
  | zero => rw [commitsGo_zero, if_neg hc, pySlice_nil]
  | succ f => rw [commitsGo_succ, if_neg hc, pySlice_nil]

/-- C2: for every cap, every page source and every fuel bound, a terminating
run of `fetch_issues` returns at most `max_issues` items, and none of the
returned items carries a pull-request marker — even though more raw items
may have been fetched, since pull requests are dropped before counting. -/
theorem claim_C2_issues_capped_no_prs (pages : Nat → PageResponse)
    (maxIssues : Int) (fuel : Nat) (res : List Item)
    (h : fetch_issues pages maxIssues fuel = some res) :
    res.length ≤ maxIssues.toNat ∧ ∀ i ∈ res, i.pullRequest = false := by
  constructor
  · rcases le_or_lt 0 maxIssues with h0 | h0
    · exact issuesGo_length fuel pages maxIssues [] 1 res h0 h
    · rw [fetchIssues_nonpos pages fuel (by omega)] at h
      cases h
      simp
  · exact issuesGo_noPR fuel pages maxIssues [] 1 res (by simp) h

/-- C2 witness: a concrete terminating run (single empty page, cap 100). -/
theorem claim_C2_witness :
    ([] : List Item).length ≤ (100 : Int).toNat ∧
      ∀ i ∈ ([] : List Item), i.pullRequest = false :=
  claim_C2_issues_capped_no_prs (fun _ => PageResponse.mk 200 []) 100 1 [] (by decide)

/-- C3: when page 1 succeeds and page 2 answers with a non-success status,
both fetches return the page-1 items (filtered, for issues) as an ordinary
partial result — no exception reaches the caller.  The hypotheses
`hI`/`hC` say page 1 fits within the caps, which always holds in the
program because a page carries at most `per_page = 100` items and both caps
are configured to 100. -/
theorem claim_C3_error_partial_result (pages : Nat → PageResponse)
    (b1 : List Item) (maxIssues maxCommits : Int) (fuel : Nat)
    (h1 : pages 1 = PageResponse.mk 200 b1)
    (h2 : (pages 2).status ≠ 200)
    (hI : (((b1.filter isRealIssue)).length : Int) ≤ maxIssues)
    (hC : ((b1.length : Int)) ≤ maxCommits)
    (hfuel : 2 ≤ fuel) :
    fetch_issues pages maxIssues fuel = some (b1.filter isRealIssue) ∧
    fetch_commits pages maxCommits fuel = some b1 := by
  obtain ⟨f, rfl⟩ : ∃ f, fuel = f + 1 + 1 := ⟨fuel - 2, by omega⟩
  constructor
  · unfold fetch_issues
    rw [issuesGo_succ, h1]
    by_cases hstart : ((([] : List Item)).length : Int) < maxIssues
    · rw [if_pos hstart, if_pos rfl]
      by_cases hemp : b1.isEmpty
      · have hb : b1 = [] := List.isEmpty_iff.mp hemp
        subst hb
        simp [pySlice_nil]
      · rw [if_neg (by simp [hemp])]
        by_cases hcap :
            maxIssues ≤ ((([] ++ (PageResponse.mk 200 b1).items.filter isRealIssue)).length : Int)
        · rw [if_pos hcap]
          rw [show ([] : List Item) ++ (PageResponse.mk 200 b1).items.filter isRealIssue
                = b1.filter isRealIssue from by simp]
          rw [pySlice_eq_self hI]
        · rw [if_neg hcap]
          rw [issuesGo_succ]
          rw [if_pos (by simp at hcap ⊢; omega), if_neg h2]
          rw [show ([] : List Item) ++ (PageResponse.mk 200 b1).items.filter isRealIssue
                = b1.filter isRealIssue from by simp]
          rw [pySlice_eq_self hI]
    · have hempt : (b1.filter isRealIssue).length = 0 := by
        simp only [List.length_nil, Nat.cast_zero, not_lt] at hstart
        omega
      rw [if_neg hstart, pySlice_nil]
      rw [List.length_eq_zero.mp hempt]
  · unfold fetch_commits
    rw [commitsGo_succ, h1]
    by_cases hstart : ((([] : List Item)).length : Int) < maxCommits
    · rw [if_pos hstart, if_pos rfl]
      by_cases hemp : b1.isEmpty
      · have hb : b1 = [] := List.isEmpty_iff.mp hemp
        subst hb
        simp [pySlice_nil]
      · rw [if_neg (by simp [hemp])]
        by_cases hshort : (PageResponse.mk 200 b1).items.length < 100
        · rw [if_pos hshort]
          rw [show ([] : List Item) ++ (PageResponse.mk 200 b1).items = b1 from by simp]
          rw [pySlice_eq_self hC]
        · rw [if_neg hshort]
          rw [commitsGo_succ]
          by_cases hlt2 : (((([] : List Item) ++ (PageResponse.mk 200 b1).items)).length : Int)
              < maxCommits
          · rw [if_pos hlt2, if_neg h2]
            rw [show ([] : List Item) ++ (PageResponse.mk 200 b1).items = b1 from by simp]
            rw [pySlice_eq_self hC]
          · rw [if_neg hlt2]
            rw [show ([] : List Item) ++ (PageResponse.mk 200 b1).items = b1 from by simp]
            rw [pySlice_eq_self hC]
    · have hb : b1 = [] := by
        simp only [List.length_nil, Nat.cast_zero, not_lt] at hstart
        have : b1.length = 0 := by omega
        exact List.length_eq_zero.mp this
      subst hb
      rw [if_neg hstart, pySlice_nil]

/-- C3 witness: page 1 holds one issue and one pull request, page 2 fails
with status 403; the fetches return the page-1 content. -/
theorem claim_C3_witness :
    fetch_issues
        (fun n => if n = 1 then PageResponse.mk 200 [Item.mk 1 false, Item.mk 2 true]
                  else PageResponse.mk 403 [])
        100 2
      = some ([Item.mk 1 false, Item.mk 2 true].filter isRealIssue) ∧
    fetch_commits
        (fun n => if n = 1 then PageResponse.mk 200 [Item.mk 1 false, Item.mk 2 true]
                  else PageResponse.mk 403 [])
        100 2
      = some [Item.mk 1 false, Item.mk 2 true] :=
  claim_C3_error_partial_result _ [Item.mk 1 false, Item.mk 2 true] 100 100 2
    (by decide) (by decide) (by decide) (by decide) (by decide)

/-- C4: the two loops terminate pagination asymmetrically.  First conjunct:
`fetch_commits` stops as soon as a successful nonempty page is shorter than
`per_page = 100` — whatever any later page holds, the result is the sliced
page-1 content.  Second conjunct: `fetch_issues` ignores that short-page
signal: after a short nonempty page 1 it still requests page 2 and
accumulates its items, stopping only at the empty page 3 or at the cap. -/
theorem claim_C4_asymmetric_termination (pages : Nat → PageResponse)
    (b1 b2 : List Item) (maxIssues maxCommits : Int) (fuelC fuelI : Nat) :
    (pages 1 = PageResponse.mk 200 b1 → b1 ≠ [] → b1.length < 100 →
     0 < maxCommits → 1 ≤ fuelC →
     fetch_commits pages maxCommits fuelC = some (pySlice b1 maxCommits)) ∧
    (pages 1 = PageResponse.mk 200 b1 → pages 2 = PageResponse.mk 200 b2 →
     pages 3 = PageResponse.mk 200 [] → b1 ≠ [] → b1.length < 100 → b2 ≠ [] →
     (((b1.filter isRealIssue)).length : Int) < maxIssues → 3 ≤ fuelI →
     fetch_issues pages maxIssues fuelI
       = some (pySlice (b1.filter isRealIssue ++ b2.filter isRealIssue) maxIssues)) := by
  constructor
  · intro h1 hne hshort hpos hfuel
    obtain ⟨g, rfl⟩ : ∃ g, fuelC = g + 1 := ⟨fuelC - 1, by omega⟩
    unfold fetch_commits
    rw [commitsGo_succ, h1]
    rw [if_pos (by simp; omega), if_pos rfl]
    rw [if_neg (by simp [hne]), if_pos hshort]
    rw [show ([] : List Item) ++ (PageResponse.mk 200 b1).items = b1 from by simp]
  · intro h1 h2 h3 hne1 hshort hne2 hcap hfuel
    obtain ⟨f, rfl⟩ : ∃ f, fuelI = f + 1 + 1 + 1 := ⟨fuelI - 3, by omega⟩
    unfold fetch_issues
    rw [issuesGo_succ, h1]
    rw [if_pos (by simp; omega), if_pos rfl]
    rw [if_neg (by simp [hne1])]
    rw [if_neg (by simpa using hcap)]
    rw [issuesGo_succ, h2]
    rw [if_pos (by simpa using hcap), if_pos rfl]
    rw [if_neg (by simp [hne2])]
    by_cases hcap2 : maxIssues ≤
        (((([] ++ (PageResponse.mk 200 b1).items.filter isRealIssue)
            ++ (PageResponse.mk 200 b2).items.filter isRealIssue)).length : Int)
    · rw [if_pos hcap2]
      rw [show ([] ++ (PageResponse.mk 200 b1).items.filter isRealIssue)
            ++ (PageResponse.mk 200 b2).items.filter isRealIssue
            = b1.filter isRealIssue ++ b2.filter isRealIssue from by simp]
    · rw [if_neg hcap2]
      rw [issuesGo_succ, h3]
      rw [if_pos (by simp at hcap2 ⊢; omega)]
      simp

/-- C4 witness: one-item page 1 (short), one-item page 2, empty page 3;
the commits fetch stops after page 1 while the issues fetch goes on to
collect page 2 as well. -/
theorem claim_C4_witness :
    fetch_commits
        (fun n => if n = 1 then PageResponse.mk 200 [Item.mk 1 false]
                  else if n = 2 then PageResponse.mk 200 [Item.mk 2 false]
                  else PageResponse.mk 200 [])
        100 1
      = some (pySlice [Item.mk 1 false] 100) ∧
    fetch_issues
        (fun n => if n = 1 then PageResponse.mk 200 [Item.mk 1 false]
                  else if n = 2 then PageResponse.mk 200 [Item.mk 2 false]
                  else PageResponse.mk 200 [])
        100 3
      = some (pySlice ([Item.mk 1 false].filter isRealIssue
                ++ [Item.mk 2 false].filter isRealIssue) 100) :=
  ⟨(claim_C4_asymmetric_termination _ [Item.mk 1 false] [Item.mk 2 false] 100 100 1 3).1
      (by decide) (by decide) (by decide) (by decide) (by decide),
   (claim_C4_asymmetric_termination _ [Item.mk 1 false] [Item.mk 2 false] 100 100 1 3).2
      (by decide) (by decide) (by decide) (by decide) (by decide) (by decide)
      (by decide) (by decide)⟩

/-- C6 counterexample: on the simulated all-successful source with page
sizes 3, 2, 0 — strictly decreasing, ending in an empty page — the claim
predicts that `fetch_commits` returns the concatenation of all prior pages
truncated to the cap (five items), but the short-page break ends the loop
after page 1 with only three items. -/
theorem claim_C6_counterexample :
    strictlyDecreasingSizes
        (([[Item.mk 1 false, Item.mk 2 false, Item.mk 3 false],
           [Item.mk 4 false, Item.mk 5 false], []]).map List.length) = true ∧
    ([[Item.mk 1 false, Item.mk 2 false, Item.mk 3 false],
      [Item.mk 4 false, Item.mk 5 false], []] : List (List Item)).getLast? = some [] ∧
    fetch_commits
        (pagesOf [[Item.mk 1 false, Item.mk 2 false, Item.mk 3 false],
                  [Item.mk 4 false, Item.mk 5 false], []]) 100 4
      ≠ some (pySlice
          ([[Item.mk 1 false, Item.mk 2 false, Item.mk 3 false],
            [Item.mk 4 false, Item.mk 5 false], []] : List (List Item)).flatten 100) :=
  ⟨by decide, by decide, by decide⟩

/-- C6 as amended: on every simulated all-successful source with strictly
decreasing page sizes ending in an empty page, both fetches terminate
(fuel exceeding the page count suffices); `fetch_issues` returns the
concatenation of the pull-request-filtered pages before the first empty
page, truncated to the cap, and `fetch_commits` returns the concatenation
of the pages up to and including the first page shorter than
`per_page = 100`, truncated to the cap. -/
theorem claim_C6_amended (ps : List (List Item)) (maxIssues maxCommits : Int) (fuel : Nat)
    (_hdec : strictlyDecreasingSizes (ps.map List.length) = true)
    (_hlast : ps.getLast? = some [])
    (hI : 0 ≤ maxIssues) (hC : 0 ≤ maxCommits) (hfuel : ps.length < fuel) :
    fetch_issues (pagesOf ps) maxIssues fuel = some (pySlice (issueItems ps) maxIssues) ∧
    fetch_commits (pagesOf ps) maxCommits fuel = some (pySlice (commitItems ps) maxCommits) := by
  constructor
  · have := issuesGo_src hI ps (pagesOf ps) fuel [] 1 (pagesOf_src ps) hfuel
    simpa [fetch_issues] using this
  · have := commitsGo_src hC ps (pagesOf ps) fuel [] 1 (pagesOf_src ps) hfuel
    simpa [fetch_commits] using this

/-- C6 witness: the amended statement at the source with page sizes 2, 1, 0. -/
theorem claim_C6_witness :
    fetch_issues (pagesOf [[Item.mk 1 false, Item.mk 2 true], [Item.mk 3 false], []]) 100 4
      = some (pySlice
          (issueItems [[Item.mk 1 false, Item.mk 2 true], [Item.mk 3 false], []]) 100) ∧
    fetch_commits (pagesOf [[Item.mk 1 false, Item.mk 2 true], [Item.mk 3 false], []]) 100 4
      = some (pySlice
          (commitItems [[Item.mk 1 false, Item.mk 2 true], [Item.mk 3 false], []]) 100) :=
  claim_C6_amended [[Item.mk 1 false, Item.mk 2 true], [Item.mk 3 false], []] 100 100 4
    (by decide) (by decide) (by decide) (by decide) (by decide)

/-- C7: `check_rate_limit` never raises (it is a total function of the
response); on any non-success status it reports 0 remaining (fails closed),
and on a success response it returns exactly the server-reported remaining
count, which is a nonnegative integer. -/
theorem claim_C7_rate_limit_fails_closed (r : RateResponse) :
    (r.status ≠ 200 → check_rate_limit r = 0) ∧
    (r.status = 200 → check_rate_limit r = r.remaining) ∧
    0 ≤ check_rate_limit r := by
  refine ⟨fun h => ?_, fun h => ?_, Nat.zero_le _⟩
  · unfold check_rate_limit
    rw [if_neg h]
  · unfold check_rate_limit
    rw [if_pos h]

/-- C7 witness: a 403 response reports 0; a 200 response reports its count. -/
theorem claim_C7_witness :
    check_rate_limit (RateResponse.mk 403 77 5000 0) = 0 ∧
    check_rate_limit (RateResponse.mk 200 77 5000 0) = 77 :=
  ⟨(claim_C7_rate_limit_fails_closed (RateResponse.mk 403 77 5000 0)).1 (by decide),
   (claim_C7_rate_limit_fails_closed (RateResponse.mk 200 77 5000 0)).2.1 rfl⟩

/-- C9: with a nonpositive cap the `while` condition fails at once, so both
fetches return the empty list even with fuel 0 — that is, without a single
page request being issued. -/
theorem claim_C9_nonpositive_cap (pagesI pagesC : Nat → PageResponse)
    (maxIssues maxCommits : Int) (hI : maxIssues ≤ 0) (hC : maxCommits ≤ 0) :
    fetch_issues pagesI maxIssues 0 = some [] ∧
    fetch_commits pagesC maxCommits 0 = some [] :=
  ⟨fetchIssues_nonpos pagesI 0 hI, fetchCommits_nonpos pagesC 0 hC⟩

/-- C9 witness: caps 0 and -3 on an arbitrary concrete source. -/
theorem claim_C9_witness :
    fetch_issues (fun _ => PageResponse.mk 200 [Item.mk 1 false]) 0 0 = some [] ∧
    fetch_commits (fun _ => PageResponse.mk 200 [Item.mk 1 false]) (-3) 0 = some [] :=
  claim_C9_nonpositive_cap _ _ 0 (-3) (by decide) (by decide)

end ApiFetch

namespace ApiFetch

/-- Invariants of the per-repository loop: it writes no combined file, it
writes one per-repository file for each entry of `all_data`, and the keys of
`all_data` are the processed prefix of the repository list, in order. -/
theorem collectLoop_spec (env : CollectEnv) : ∀ rs : List String,
    (collectLoop env rs).1.countP isCombinedEv = 0 ∧
    (collectLoop env rs).1.countP isPerRepoEv = (collectLoop env rs).2.length ∧
    (collectLoop env rs).2.map Prod.fst = rs.take (collectLoop env rs).2.length := by
  intro rs
  induction rs with
  | nil => simp [collectLoop]
  | cons r rest ih =>
    rw [collectLoop]
    split
    · refine ⟨?_, ?_, ?_⟩ <;> simp [isCombinedEv, isPerRepoEv]
    · obtain ⟨ih1, ih2, ih3⟩ := ih
      refine ⟨?_, ?_, ?_⟩
      · simpa [isCombinedEv] using ih1
      · simpa [isPerRepoEv] using ih2
      · simpa [List.take_succ_cons] using ih3

/-- C5: if the pre-flight rate check reports fewer than 100 remaining, the
run writes nothing at all; otherwise exactly one combined snapshot is
written, it is the last write of the run (after every per-repository
write), its keys are a prefix of the configured repository list in list
order — the repositories processed before the loop ended, whether it
completed or stopped early at the post-repository check — and each of those
repositories also got its own snapshot file. -/
theorem claim_C5_collector_flow (env : CollectEnv) :
    (check_rate_limit env.preRate < 100 → main env = []) ∧
    (100 ≤ check_rate_limit env.preRate →
      (main env).countP isCombinedEv = 1 ∧
      (main env).getLast?
        = some (WriteEvent.combined ("all_repos_" ++ env.timestamp ++ ".json") (allData env)) ∧
      (allData env).map Prod.fst = REPOSITORIES.take (allData env).length ∧
      (main env).countP isPerRepoEv = (allData env).length) := by
  constructor
  · intro h
    unfold main
    rw [if_pos h]
  · intro h
    obtain ⟨h1, h2, h3⟩ := collectLoop_spec env REPOSITORIES
    have hmain : main env
        = (collectLoop env REPOSITORIES).1
          ++ [WriteEvent.combined ("all_repos_" ++ env.timestamp ++ ".json") (allData env)] := by
      unfold main
      rw [if_neg (by omega)]
    refine ⟨?_, ?_, h3, ?_⟩
    · rw [hmain, List.countP_append, h1]
      simp [isCombinedEv]
    · rw [hmain]
      exact List.getLast?_concat _
    · rw [hmain, List.countP_append, h2]
      simp [isPerRepoEv, allData]

/-- C5 witness: a run whose pre-flight check reports 500 remaining and whose
post-repository check drops below 50 right after the second repository, so
the loop stops early with two repositories collected. -/
theorem claim_C5_witness :
    (main (CollectEnv.mk (RateResponse.mk 200 500 5000 0)
        (fun r => if r = "numpy/numpy" then RateResponse.mk 200 10 5000 0
                  else RateResponse.mk 200 400 5000 0)
        (fun _ => InfoResponse.mk 404 Json.null) (fun _ => []) (fun _ => [])
        (fun _ => "t0") "ts")).countP isCombinedEv = 1 ∧
    (allData (CollectEnv.mk (RateResponse.mk 200 500 5000 0)
        (fun r => if r = "numpy/numpy" then RateResponse.mk 200 10 5000 0
                  else RateResponse.mk 200 400 5000 0)
        (fun _ => InfoResponse.mk 404 Json.null) (fun _ => []) (fun _ => [])
        (fun _ => "t0") "ts")).map Prod.fst
      = REPOSITORIES.take
          (allData (CollectEnv.mk (RateResponse.mk 200 500 5000 0)
            (fun r => if r = "numpy/numpy" then RateResponse.mk 200 10 5000 0
                      else RateResponse.mk 200 400 5000 0)
            (fun _ => InfoResponse.mk 404 Json.null) (fun _ => []) (fun _ => [])
            (fun _ => "t0") "ts")).length ∧
    (allData (CollectEnv.mk (RateResponse.mk 200 500 5000 0)
        (fun r => if r = "numpy/numpy" then RateResponse.mk 200 10 5000 0
                  else RateResponse.mk 200 400 5000 0)
        (fun _ => InfoResponse.mk 404 Json.null) (fun _ => []) (fun _ => [])
        (fun _ => "t0") "ts")).length = 2 := by
  refine ⟨?_, ?_, ?_⟩
  · exact ((claim_C5_collector_flow _).2 (by decide)).1
  · exact ((claim_C5_collector_flow _).2 (by decide)).2.2.1
  · decide

end ApiFetch

namespace WriteToAll

/-- Whatever files are merged, `combined_data` is either empty or the single
entry under `lastKey`, holding the stamped content of the last file that
loaded; folding `processFile` preserves that shape. -/
theorem combineGo (files : List (Option MData)) :
    ∀ a : Option Json,
      List.foldl processFile
          (match a with
           | none => ([] : MData)
           | some j => [(lastKey, j)]) files
        = (match List.foldl
              (fun acc f =>
                match fileResult f with
                | some j => some j
                | none => acc) a files with
           | none => ([] : MData)
           | some j => [(lastKey, j)]) := by
  induction files with
  | nil => intro a; rfl
  | cons f files ih =>
    intro a
    have hstep : processFile
        (match a with
         | none => ([] : MData)
         | some j => [(lastKey, j)]) f
        = (match (match fileResult f with
                  | some j => some j
                  | none => a) with
           | none => ([] : MData)
           | some j => [(lastKey, j)]) := by
      cases f with
      | none => rfl
      | some data =>
        cases hst : stampKeys data KEYS with
        | none => cases a <;> simp [processFile, fileResult, hst]
        | some d2 => cases a <;> simp [processFile, fileResult, hst, setKey]
    rw [List.foldl_cons, hstep, List.foldl_cons, ih]

/-- C10: the merged document always has at most one top-level key; that key
is the leftover loop variable `lastKey`, which is `"mlflow/mlflow"`; and
the merged value under it is the entire (stamped) content of the last file
that loaded successfully — not a per-identifier selection. -/
theorem claim_C10_merger_single_key (files : List (Option MData)) :
    (combineFiles files).length ≤ 1 ∧
    (∀ e ∈ combineFiles files, e.1 = lastKey) ∧
    lastKey = "mlflow/mlflow" ∧
    combineFiles files
      = (match lastGood files with
         | none => ([] : MData)
         | some j => [(lastKey, j)]) := by
  have hc : combineFiles files
      = (match lastGood files with
         | none => ([] : MData)
         | some j => [(lastKey, j)]) := by
    unfold combineFiles lastGood
    exact combineGo files none
  refine ⟨?_, ?_, rfl, hc⟩
  · rw [hc]
    cases lastGood files <;> simp
  · rw [hc]
    cases lastGood files <;> simp

/-- C1, evaluated at its failing input: merging two files that both hold the
top-level key `"numpy/numpy"` produces a document with no `"numpy/numpy"`
key at all — the only key is `"mlflow/mlflow"`, bound to the entire second
file (with its nested `repository` field stamped), because
`combined_data[key] = data` runs after the `for key in KEYS` loop instead
of inside it. -/
theorem claim_C1_merge_eval :
    lookupKey
        (combineFiles
          [some [("numpy/numpy", Json.obj [("repository", Json.str "stale1")])],
           some [("numpy/numpy",
                  Json.obj [("repository", Json.str "stale2"), ("x", Json.num 2)])]])
        "numpy/numpy" = none ∧
    (combineFiles
        [some [("numpy/numpy", Json.obj [("repository", Json.str "stale1")])],
         some [("numpy/numpy",
                Json.obj [("repository", Json.str "stale2"), ("x", Json.num 2)])]]).map
        Prod.fst = ["mlflow/mlflow"] ∧
    combineFiles
        [some [("numpy/numpy", Json.obj [("repository", Json.str "stale1")])],
         some [("numpy/numpy",
                Json.obj [("repository", Json.str "stale2"), ("x", Json.num 2)])]]
      = [("mlflow/mlflow",
          Json.obj [("numpy/numpy",
            Json.obj [("repository", Json.str "numpy/numpy"), ("x", Json.num 2)])])] :=
  ⟨rfl, rfl, rfl⟩

end WriteToAll

/-! ## Round-trip of the JSON codec model (claim C8) -/

theorem digitChar_spec (k : Nat) (h : k < 10) :
    digitVal (digitChar k) = k ∧ isDigitCh (digitChar k) = true := by
  interval_cases k <;> exact ⟨by decide, by decide⟩

theorem hexChar_spec (k : Nat) (h : k < 16) : hexValCh (hexChar k) = some k := by
  interval_cases k <;> decide

theorem natChars_ne_nil (n : Nat) : natChars n ≠ [] := by
  rw [natChars]
  split <;> simp

theorem natChars_digits (n : Nat) : ∀ c ∈ natChars n, isDigitCh c = true := by
  induction n using natChars.induct with
  | case1 n h =>
    rw [natChars, if_pos h]
    intro c hc
    rw [List.mem_singleton] at hc
    subst hc
    exact (digitChar_spec n h).2
  | case2 n h ih =>
    rw [natChars, if_neg h]
    intro c hc
    rcases List.mem_append.mp hc with hc1 | hc2
    · exact ih c hc1
    · rw [List.mem_singleton] at hc2
      subst hc2
      exact (digitChar_spec (n % 10) (Nat.mod_lt _ (by omega))).2

theorem natChars_cons (n : Nat) :
    ∃ c t, natChars n = c :: t ∧ isDigitCh c = true := by
  cases h : natChars n with
  | nil => exact absurd h (natChars_ne_nil n)
  | cons c t =>
    refine ⟨c, t, rfl, natChars_digits n c ?_⟩
    rw [h]
    exact List.mem_cons_self c t

theorem natChars_foldl (n : Nat) :
    ∀ a : Nat, (natChars n).foldl (fun a c => a * 10 + digitVal c) a
      = a * 10 ^ (natChars n).length + n := by
  induction n using natChars.induct with
  | case1 n h =>
    intro a
    rw [natChars, if_pos h]
    simp only [List.foldl_cons, List.foldl_nil, List.length_singleton]
    rw [(digitChar_spec n h).1]
    omega
  | case2 n h ih =>
    intro a
    rw [natChars, if_neg h]
    rw [List.foldl_append, List.length_append]
    simp only [List.foldl_cons, List.foldl_nil, List.length_singleton]
    rw [ih a, (digitChar_spec (n % 10) (Nat.mod_lt _ (by omega))).1]
    rw [pow_succ, ← mul_assoc]
    omega

theorem digitsNat_natChars (n : Nat) : digitsNat (natChars n) = n := by
  unfold digitsNat
  rw [natChars_foldl n 0]
  omega

theorem digitCh_ne {c x : Char} (h : isDigitCh c = true) (hx : isDigitCh x = false) :
    c ≠ x := by
  intro e
  subst e
  rw [h] at hx
  cases hx

theorem digitCh_not_ws {c : Char} (h : isDigitCh c = true) : isWsCh c = false := by
  by_contra hw
  rw [Bool.not_eq_false] at hw
  simp only [isWsCh, Bool.or_eq_true, decide_eq_true_eq] at hw
  rcases hw with ((rfl | rfl) | rfl) | rfl <;> exact absurd h (by decide)

theorem grabDigits_append :
    ∀ (ds : List Char), (∀ c ∈ ds, isDigitCh c = true) →
    ∀ (rest : List Char), (∀ c, rest.head? = some c → isDigitCh c = false) →
    grabDigits (ds ++ rest) = (ds, rest) := by
  intro ds
  induction ds with
  | nil =>
    intro _ rest hrest
    cases rest with
    | nil => rfl
    | cons c t =>
      rw [List.nil_append, grabDigits, if_neg (by rw [hrest c rfl]; simp)]
  | cons d ds ih =>
    intro hds rest hrest
    rw [List.cons_append, grabDigits, if_pos (hds d (List.mem_cons_self d ds))]
    rw [ih (fun c hc => hds c (List.mem_cons_of_mem d hc)) rest hrest]

theorem skipWs_app : ∀ (w : List Char), (∀ c ∈ w, isWsCh c = true) →
    ∀ s, skipWs (w ++ s) = skipWs s := by
  intro w
  induction w with
  | nil => intro _ s; rfl
  | cons c t ih =>
    intro hw s
    rw [List.cons_append, skipWs, if_pos (hw c (List.mem_cons_self c t))]
    exact ih (fun x hx => hw x (List.mem_cons_of_mem c hx)) s

theorem skipWs_no {c : Char} (h : isWsCh c = false) (s : List Char) :
    skipWs (c :: s) = c :: s := by
  rw [skipWs, if_neg (by rw [h]; simp)]

theorem pad_ws (n : Nat) : ∀ c ∈ pad n, isWsCh c = true := by
  intro c hc
  rw [List.eq_of_mem_replicate hc]
  decide

theorem parseNumber_intChars (n : Int) (rest : List Char)
    (hrest : ∀ c, rest.head? = some c → isDigitCh c = false) :
    parseNumber (intChars n ++ rest) = some (Json.num n, rest) := by
  by_cases hn : n < 0
  · rw [intChars, if_pos hn, List.cons_append, parseNumber]
    rw [if_pos rfl]
    rw [grabDigits_append (natChars (-n).toNat) (natChars_digits _) rest hrest]
    obtain ⟨c, t, hct, _⟩ := natChars_cons (-n).toNat
    rw [hct]
    show some (Json.num (-(digitsNat (c :: t) : Int)), rest) = some (Json.num n, rest)
    rw [← hct, digitsNat_natChars]
    have : -(((-n).toNat : Nat) : Int) = n := by
      rw [Int.toNat_of_nonneg (by omega)]
      omega
    rw [this]
  · rw [intChars, if_neg hn]
    obtain ⟨c, t, hct, hc⟩ := natChars_cons n.toNat
    rw [hct, List.cons_append, parseNumber]
    rw [if_neg (digitCh_ne hc (by decide))]
    rw [← List.cons_append, ← hct]
    rw [grabDigits_append (natChars n.toNat) (natChars_digits _) rest hrest]
    rw [hct]
    show some (Json.num ((digitsNat (c :: t) : Nat) : Int), rest) = some (Json.num n, rest)
    rw [← hct, digitsNat_natChars, Int.toNat_of_nonneg (by omega)]


theorem parseStrRest_escape (c : Char) (s : List Char) :
    parseStrRest (escapeChar c ++ s)
      = (parseStrRest s).map (fun p => (c :: p.1, p.2)) := by
  rw [escapeChar]
  split_ifs with h1 h2 h3 h4 h5 h6 h7 h8
  · subst h1; rw [parseStrRest.eq_def]; rfl
  · subst h2; rw [parseStrRest.eq_def]; rfl
  · subst h3; rw [parseStrRest.eq_def]; rfl
  · subst h4; rw [parseStrRest.eq_def]; rfl
  · subst h5; rw [parseStrRest.eq_def]; rfl
  · subst h6; rw [parseStrRest.eq_def]; rfl
  · subst h7; rw [parseStrRest.eq_def]; rfl
  · have h0 : hexValCh '0' = some 0 := by decide
    have hhi : hexValCh (hexChar (c.toNat / 16)) = some (c.toNat / 16) :=
      hexChar_spec _ (by omega)
    have hlo : hexValCh (hexChar (c.toNat % 16)) = some (c.toNat % 16) :=
      hexChar_spec _ (Nat.mod_lt _ (by omega))
    rw [parseStrRest.eq_def]
    simp only [List.cons_append, List.nil_append]
    simp [h0, hhi, hlo]
    have harith : c.toNat / 16 * 16 + c.toNat % 16 = c.toNat := by omega
    rw [harith, Char.ofNat_toNat]
  · show parseStrRest (c :: s) = (parseStrRest s).map (fun p => (c :: p.1, p.2))
    rw [parseStrRest.eq_def]
    simp only [if_neg h1, if_neg h2]

theorem parseStrRest_escList (cs : List Char) :
    ∀ tail : List Char, parseStrRest (escList cs ++ '\x22' :: tail) = some (cs, tail) := by
  induction cs with
  | nil =>
    intro tail
    rw [escList, List.nil_append, parseStrRest.eq_def]
    rfl
  | cons c cs ih =>
    intro tail
    rw [escList, List.append_assoc, parseStrRest_escape, ih]
    rfl

theorem intChars_head (n : Int) :
    ∃ c t, intChars n = c :: t ∧ isWsCh c = false ∧ c ≠ 'n' ∧ c ≠ 't' ∧ c ≠ 'f' ∧
      c ≠ '\x22' ∧ c ≠ '[' ∧ c ≠ '\x7b' ∧ c ≠ ']' ∧ c ≠ '\x7d' := by
  by_cases hn : n < 0
  · refine ⟨'-', natChars (-n).toNat, ?_, by decide, by decide, by decide, by decide,
      by decide, by decide, by decide, by decide, by decide⟩
    rw [intChars, if_pos hn]
  · obtain ⟨c, t, hct, hc⟩ := natChars_cons n.toNat
    refine ⟨c, t, ?_, digitCh_not_ws hc, digitCh_ne hc (by decide), digitCh_ne hc (by decide),
      digitCh_ne hc (by decide), digitCh_ne hc (by decide), digitCh_ne hc (by decide),
      digitCh_ne hc (by decide), digitCh_ne hc (by decide), digitCh_ne hc (by decide)⟩
    rw [intChars, if_neg hn, hct]

theorem dumpVal_head (v : Json) (ind : Nat) :
    ∃ c t, dumpVal v ind = c :: t ∧ isWsCh c = false ∧ c ≠ ']' ∧ c ≠ '\x7d' := by
  cases v with
  | null => exact ⟨'n', ['u', 'l', 'l'], by simp [dumpVal], by decide, by decide, by decide⟩
  | bool b =>
    cases b with
    | true => exact ⟨'t', ['r', 'u', 'e'], by simp [dumpVal], by decide, by decide, by decide⟩
    | false =>
      exact ⟨'f', ['a', 'l', 's', 'e'], by simp [dumpVal], by decide, by decide, by decide⟩
  | num n =>
    obtain ⟨c, t, hct, hws, _, _, _, _, _, _, hbr, hbc⟩ := intChars_head n
    exact ⟨c, t, by simp [dumpVal, hct], hws, hbr, hbc⟩
  | str s =>
    exact ⟨'\x22', escList s.data ++ ['\x22'], by simp [dumpVal], by decide, by decide, by decide⟩
  | arr xs =>
    cases xs with
    | nil => exact ⟨'[', [']'], by simp [dumpVal], by decide, by decide, by decide⟩
    | cons x xs =>
      exact ⟨'[', '\n' :: (pad (ind + 2) ++ dumpVal x (ind + 2) ++ dumpArrRest xs ind),
        by simp [dumpVal], by decide, by decide, by decide⟩
  | obj kvs =>
    cases kvs with
    | nil => exact ⟨'\x7b', ['\x7d'], by simp [dumpVal], by decide, by decide, by decide⟩
    | cons kv kvs =>
      obtain ⟨k, v⟩ := kv
      exact ⟨'\x7b', '\n' :: (pad (ind + 2) ++ dumpMember k v (ind + 2) ++ dumpObjRest kvs ind),
        by simp [dumpVal], by decide, by decide, by decide⟩

theorem dumpArrRest_len_pos (xs : List Json) (ind : Nat) :
    0 < (dumpArrRest xs ind).length := by
  cases xs <;> simp [dumpArrRest]

theorem dumpObjRest_len_pos (kvs : List (String × Json)) (ind : Nat) :
    0 < (dumpObjRest kvs ind).length := by
  cases kvs with
  | nil => simp [dumpObjRest]
  | cons kv kvs =>
    obtain ⟨k, v⟩ := kv
    simp [dumpObjRest]

theorem parseValue_succ (f : Nat) (s : List Char) :
    parseValue (f + 1) s
      = (match skipWs s with
         | [] => none
         | c :: rest =>
           if c = 'n' then
             match rest with
             | 'u' :: 'l' :: 'l' :: r => some (Json.null, r)
             | _ => none
           else if c = 't' then
             match rest with
             | 'r' :: 'u' :: 'e' :: r => some (Json.bool true, r)
             | _ => none
           else if c = 'f' then
             match rest with
             | 'a' :: 'l' :: 's' :: 'e' :: r => some (Json.bool false, r)
             | _ => none
           else if c = '\x22' then
             (parseStrRest rest).map (fun p => (Json.str (String.mk p.1), p.2))
           else if c = '[' then
             match skipWs rest with
             | [] => none
             | c2 :: r =>
               if c2 = ']' then some (Json.arr [], r)
               else (parseElems f (c2 :: r)).map (fun p => (Json.arr p.1, p.2))
           else if c = '\x7b' then
             match skipWs rest with
             | [] => none
             | c2 :: r =>
               if c2 = '\x7d' then some (Json.obj [], r)
               else (parseMembers f (c2 :: r)).map (fun p => (Json.obj p.1, p.2))
           else parseNumber (c :: rest)) := rfl

theorem parseElems_succ (f : Nat) (s : List Char) :
    parseElems (f + 1) s
      = (match parseValue f s with
         | none => none
         | some (v, r) =>
           match skipWs r with
           | ',' :: r2 => (parseElems f r2).map (fun p => (v :: p.1, p.2))
           | ']' :: r2 => some ([v], r2)
           | _ => none) := rfl

theorem parseMembers_succ (f : Nat) (s : List Char) :
    parseMembers (f + 1) s
      = (match skipWs s with
         | [] => none
         | q :: rest =>
           if q = '\x22' then
             match parseStrRest rest with
             | none => none
             | some (k, r1) =>
               match skipWs r1 with
               | ':' :: r2 =>
                 (match parseValue f r2 with
                  | none => none
                  | some (v, r3) =>
                    match skipWs r3 with
                    | ',' :: r4 =>
                      (parseMembers f r4).map (fun p => ((String.mk k, v) :: p.1, p.2))
                    | '\x7d' :: r4 => some ([(String.mk k, v)], r4)
                    | _ => none)
               | _ => none
           else none) := rfl

theorem parseValue_ws (f : Nat) (w : List Char) (hw : ∀ c ∈ w, isWsCh c = true)
    (s : List Char) : parseValue (f + 1) (w ++ s) = parseValue (f + 1) s := by
  rw [parseValue_succ, parseValue_succ, skipWs_app w hw]

theorem parseMembers_ws (f : Nat) (w : List Char) (hw : ∀ c ∈ w, isWsCh c = true)
    (s : List Char) : parseMembers (f + 1) (w ++ s) = parseMembers (f + 1) s := by
  rw [parseMembers_succ, parseMembers_succ, skipWs_app w hw]

theorem parseValue_ws_all (fuel : Nat) (w : List Char) (hw : ∀ c ∈ w, isWsCh c = true)
    (s : List Char) : parseValue fuel (w ++ s) = parseValue fuel s := by
  cases fuel with
  | zero => rfl
  | succ f => exact parseValue_ws f w hw s

theorem parseValue_bracket (f : Nat) (rest : List Char) :
    parseValue (f + 1) ('[' :: rest)
      = (match skipWs rest with
         | [] => none
         | c2 :: r =>
           if c2 = ']' then some (Json.arr [], r)
           else (parseElems f (c2 :: r)).map (fun p => (Json.arr p.1, p.2))) := rfl

theorem parseValue_brace (f : Nat) (rest : List Char) :
    parseValue (f + 1) ('\x7b' :: rest)
      = (match skipWs rest with
         | [] => none
         | c2 :: r =>
           if c2 = '\x7d' then some (Json.obj [], r)
           else (parseMembers f (c2 :: r)).map (fun p => (Json.obj p.1, p.2))) := rfl

theorem parseMembers_quote (g : Nat) (rest : List Char) :
    parseMembers (g + 1) ('\x22' :: rest)
      = (match parseStrRest rest with
         | none => none
         | some (k, r1) =>
           match skipWs r1 with
           | ':' :: r2 =>
             (match parseValue g r2 with
              | none => none
              | some (v, r3) =>
                match skipWs r3 with
                | ',' :: r4 => (parseMembers g r4).map (fun p => ((String.mk k, v) :: p.1, p.2))
                | '\x7d' :: r4 => some ([(String.mk k, v)], r4)
                | _ => none)
           | _ => none) := rfl

theorem dumpArrRest_nil (ind : Nat) :
    dumpArrRest [] ind = '\n' :: (pad ind ++ [']']) := by
  simp [dumpArrRest]

theorem dumpArrRest_cons (y : Json) (ys : List Json) (ind : Nat) :
    dumpArrRest (y :: ys) ind
      = ',' :: '\n' :: (pad (ind + 2) ++ (dumpVal y (ind + 2) ++ dumpArrRest ys ind)) := by
  simp [dumpArrRest]

theorem dumpObjRest_nil (ind : Nat) :
    dumpObjRest [] ind = '\n' :: (pad ind ++ ['\x7d']) := by
  simp [dumpObjRest]

theorem dumpObjRest_cons (k2 : String) (v2 : Json) (ys : List (String × Json)) (ind : Nat) :
    dumpObjRest ((k2, v2) :: ys) ind
      = ',' :: '\n' :: (pad (ind + 2) ++ (dumpMember k2 v2 (ind + 2) ++ dumpObjRest ys ind)) := by
  simp [dumpObjRest]

theorem dumpMember_eq (k : String) (v : Json) (ind : Nat) :
    dumpMember k v ind
      = '\x22' :: (escList k.data ++ ('\x22' :: ':' :: ' ' :: dumpVal v ind)) := by
  simp [dumpMember]

theorem dumpArrRest_head_not_digit (xs : List Json) (ind : Nat) (rest : List Char) :
    ∀ c, (dumpArrRest xs ind ++ rest).head? = some c → isDigitCh c = false := by
  intro c hc
  cases xs with
  | nil =>
    rw [dumpArrRest_nil, List.cons_append, List.head?_cons] at hc
    cases hc
    decide
  | cons y ys =>
    rw [dumpArrRest_cons, List.cons_append, List.head?_cons] at hc
    cases hc
    decide

theorem dumpObjRest_head_not_digit (kvs : List (String × Json)) (ind : Nat) (rest : List Char) :
    ∀ c, (dumpObjRest kvs ind ++ rest).head? = some c → isDigitCh c = false := by
  intro c hc
  cases kvs with
  | nil =>
    rw [dumpObjRest_nil, List.cons_append, List.head?_cons] at hc
    cases hc
    decide
  | cons kv ys =>
    obtain ⟨k2, v2⟩ := kv
    rw [dumpObjRest_cons, List.cons_append, List.head?_cons] at hc
    cases hc
    decide

set_option maxHeartbeats 1600000

mutual

theorem rt_value : ∀ (v : Json) (ind fuel : Nat) (rest : List Char),
    (dumpVal v ind).length < fuel →
    (∀ c, rest.head? = some c → isDigitCh c = false) →
    parseValue fuel (dumpVal v ind ++ rest) = some (v, rest)
  | Json.null, ind, fuel, rest, hf, _ => by
    cases fuel with
    | zero => exact absurd hf (Nat.not_lt_zero _)
    | succ f =>
      rw [show dumpVal Json.null ind = ['n', 'u', 'l', 'l'] from by simp [dumpVal]]
      rfl
  | Json.bool true, ind, fuel, rest, hf, _ => by
    cases fuel with
    | zero => exact absurd hf (Nat.not_lt_zero _)
    | succ f =>
      rw [show dumpVal (Json.bool true) ind = ['t', 'r', 'u', 'e'] from by simp [dumpVal]]
      rfl
  | Json.bool false, ind, fuel, rest, hf, _ => by
    cases fuel with
    | zero => exact absurd hf (Nat.not_lt_zero _)
    | succ f =>
      rw [show dumpVal (Json.bool false) ind = ['f', 'a', 'l', 's', 'e'] from by simp [dumpVal]]
      rfl
  | Json.num n, ind, fuel, rest, hf, hrest => by
    cases fuel with
    | zero => exact absurd hf (Nat.not_lt_zero _)
    | succ f =>
      rw [show dumpVal (Json.num n) ind = intChars n from by simp [dumpVal]]
      obtain ⟨c, t, hct, hws, hn, ht, hf', hq, hbk, hbc, _, _⟩ := intChars_head n
      rw [hct, List.cons_append, parseValue_succ, skipWs_no hws]
      show (if c = 'n' then
              match t ++ rest with
              | 'u' :: 'l' :: 'l' :: r => some (Json.null, r)
              | _ => none
            else if c = 't' then
              match t ++ rest with
              | 'r' :: 'u' :: 'e' :: r => some (Json.bool true, r)
              | _ => none
            else if c = 'f' then
              match t ++ rest with
              | 'a' :: 'l' :: 's' :: 'e' :: r => some (Json.bool false, r)
              | _ => none
            else if c = '\x22' then
              (parseStrRest (t ++ rest)).map (fun p => (Json.str (String.mk p.1), p.2))
            else if c = '[' then
              match skipWs (t ++ rest) with
              | [] => none
              | c2 :: r =>
                if c2 = ']' then some (Json.arr [], r)
                else (parseElems f (c2 :: r)).map (fun p => (Json.arr p.1, p.2))
            else if c = '\x7b' then
              match skipWs (t ++ rest) with
              | [] => none
              | c2 :: r =>
                if c2 = '\x7d' then some (Json.obj [], r)
                else (parseMembers f (c2 :: r)).map (fun p => (Json.obj p.1, p.2))
            else parseNumber (c :: (t ++ rest)))
          = some (Json.num n, rest)
      rw [if_neg hn, if_neg ht, if_neg hf', if_neg hq, if_neg hbk, if_neg hbc]
      rw [← List.cons_append, ← hct]
      exact parseNumber_intChars n rest hrest
  | Json.str s, ind, fuel, rest, hf, _ => by
    cases fuel with
    | zero => exact absurd hf (Nat.not_lt_zero _)
    | succ f =>
      rw [show dumpVal (Json.str s) ind = '\x22' :: (escList s.data ++ ['\x22'])
            from by simp [dumpVal]]
      rw [List.cons_append, List.append_assoc, List.singleton_append]
      show (parseStrRest (escList s.data ++ '\x22' :: rest)).map
          (fun p => (Json.str (String.mk p.1), p.2)) = some (Json.str s, rest)
      rw [parseStrRest_escList]
      rfl
  | Json.arr [], ind, fuel, rest, hf, _ => by
    cases fuel with
    | zero => exact absurd hf (Nat.not_lt_zero _)
    | succ f =>
      rw [show dumpVal (Json.arr []) ind = ['[', ']'] from by simp [dumpVal]]
      rfl
  | Json.arr (x :: xs), ind, fuel, rest, hf, _ => by
    cases fuel with
    | zero => exact absurd hf (Nat.not_lt_zero _)
    | succ f =>
      have hd : dumpVal (Json.arr (x :: xs)) ind
          = '[' :: '\n' :: (pad (ind + 2) ++ (dumpVal x (ind + 2) ++ dumpArrRest xs ind)) := by
        simp [dumpVal]
      obtain ⟨cx, tx, hcx, hwx, hbx, _⟩ := dumpVal_head x (ind + 2)
      have hskip : skipWs ('\n' :: ((pad (ind + 2) ++ (dumpVal x (ind + 2) ++ dumpArrRest xs ind)) ++ rest))
          = cx :: (tx ++ (dumpArrRest xs ind ++ rest)) := by
        rw [← List.singleton_append,
          skipWs_app ['\n'] (by intro cc hcc; rw [List.mem_singleton] at hcc; subst hcc; decide),
          List.append_assoc, skipWs_app (pad (ind + 2)) (pad_ws _),
          List.append_assoc, hcx, List.cons_append]
        exact skipWs_no hwx _
      rw [hd, List.cons_append, parseValue_bracket, List.cons_append, hskip]
      show (if cx = ']' then some (Json.arr [], tx ++ (dumpArrRest xs ind ++ rest))
            else (parseElems f (cx :: (tx ++ (dumpArrRest xs ind ++ rest)))).map
                (fun p => (Json.arr p.1, p.2)))
          = some (Json.arr (x :: xs), rest)
      rw [if_neg hbx, ← List.cons_append, ← hcx]
      have hfe : (dumpVal x (ind + 2)).length + (dumpArrRest xs ind).length < f := by
        rw [hd] at hf
        simp only [List.length_cons, List.length_append] at hf
        omega
      have he := rt_elems x xs ind f rest [] (by simp) hfe
      rw [List.nil_append] at he
      rw [he]
      rfl
  | Json.obj [], ind, fuel, rest, hf, _ => by
    cases fuel with
    | zero => exact absurd hf (Nat.not_lt_zero _)
    | succ f =>
      rw [show dumpVal (Json.obj []) ind = ['\x7b', '\x7d'] from by simp [dumpVal]]
      rfl
  | Json.obj ((k, v) :: kvs), ind, fuel, rest, hf, _ => by
    cases fuel with
    | zero => exact absurd hf (Nat.not_lt_zero _)
    | succ f =>
      have hd : dumpVal (Json.obj ((k, v) :: kvs)) ind
          = '\x7b' :: '\n' :: (pad (ind + 2) ++ (dumpMember k v (ind + 2) ++ dumpObjRest kvs ind)) := by
        simp [dumpVal]
      have hskip : skipWs ('\n' :: ((pad (ind + 2) ++ (dumpMember k v (ind + 2) ++ dumpObjRest kvs ind)) ++ rest))
          = '\x22' :: ((escList k.data ++ ('\x22' :: ':' :: ' ' :: dumpVal v (ind + 2)))
              ++ (dumpObjRest kvs ind ++ rest)) := by
        rw [← List.singleton_append,
          skipWs_app ['\n'] (by intro cc hcc; rw [List.mem_singleton] at hcc; subst hcc; decide),
          List.append_assoc, skipWs_app (pad (ind + 2)) (pad_ws _),
          List.append_assoc, dumpMember_eq, List.cons_append]
        exact skipWs_no (by decide) _
      rw [hd, List.cons_append, parseValue_brace, List.cons_append, hskip]
      show (if ('\x22' : Char) = '\x7d' then
              some (Json.obj [],
                (escList k.data ++ ('\x22' :: ':' :: ' ' :: dumpVal v (ind + 2)))
                  ++ (dumpObjRest kvs ind ++ rest))
            else (parseMembers f
                ('\x22' :: ((escList k.data ++ ('\x22' :: ':' :: ' ' :: dumpVal v (ind + 2)))
                  ++ (dumpObjRest kvs ind ++ rest)))).map (fun p => (Json.obj p.1, p.2)))
          = some (Json.obj ((k, v) :: kvs), rest)
      rw [if_neg (by decide)]
      have hfm : (dumpMember k v (ind + 2)).length + (dumpObjRest kvs ind).length < f := by
        rw [hd] at hf
        simp only [List.length_cons, List.length_append] at hf
        omega
      have hm := rt_members k v kvs ind f rest [] (by simp) hfm
      rw [List.nil_append, dumpMember_eq, List.cons_append] at hm
      rw [hm]
      rfl
termination_by v ind fuel rest hf hrest => sizeOf v

theorem rt_elems : ∀ (x : Json) (xs : List Json) (ind fuel : Nat) (rest w : List Char),
    (∀ c ∈ w, isWsCh c = true) →
    (dumpVal x (ind + 2)).length + (dumpArrRest xs ind).length < fuel →
    parseElems fuel (w ++ (dumpVal x (ind + 2) ++ (dumpArrRest xs ind ++ rest)))
      = some (x :: xs, rest)
  | x, [], ind, fuel, rest, w, hw, hfuel => by
    cases fuel with
    | zero => exact absurd hfuel (Nat.not_lt_zero _)
    | succ g =>
      rw [parseElems_succ]
      have hval : parseValue g (w ++ (dumpVal x (ind + 2) ++ (dumpArrRest [] ind ++ rest)))
          = some (x, dumpArrRest [] ind ++ rest) := by
        rw [parseValue_ws_all g w hw]
        refine rt_value x (ind + 2) g _ ?_ (dumpArrRest_head_not_digit [] ind rest)
        have := dumpArrRest_len_pos ([] : List Json) ind
        omega
      have hskip : skipWs (dumpArrRest [] ind ++ rest) = ']' :: rest := by
        rw [dumpArrRest_nil, List.cons_append, ← List.singleton_append,
          skipWs_app ['\n'] (by intro cc hcc; rw [List.mem_singleton] at hcc; subst hcc; decide),
          List.append_assoc, List.singleton_append,
          skipWs_app (pad ind) (pad_ws ind)]
        exact skipWs_no (by decide) rest
      rw [hval]
      simp only [hskip]
  | x, y :: ys, ind, fuel, rest, w, hw, hfuel => by
    cases fuel with
    | zero => exact absurd hfuel (Nat.not_lt_zero _)
    | succ g =>
      rw [parseElems_succ]
      have hval : parseValue g (w ++ (dumpVal x (ind + 2) ++ (dumpArrRest (y :: ys) ind ++ rest)))
          = some (x, dumpArrRest (y :: ys) ind ++ rest) := by
        rw [parseValue_ws_all g w hw]
        refine rt_value x (ind + 2) g _ ?_ (dumpArrRest_head_not_digit (y :: ys) ind rest)
        have := dumpArrRest_len_pos (y :: ys) ind
        omega
      have hskip2 : skipWs (dumpArrRest (y :: ys) ind ++ rest)
          = ',' :: (('\n' :: (pad (ind + 2) ++ (dumpVal y (ind + 2) ++ dumpArrRest ys ind))) ++ rest) := by
        rw [dumpArrRest_cons, List.cons_append]
        exact skipWs_no (by decide) _
      have he := rt_elems y ys ind g rest ('\n' :: pad (ind + 2))
        (by
          intro cc hcc
          rcases List.mem_cons.mp hcc with h | h
          · subst h; decide
          · exact pad_ws _ cc h)
        (by
          rw [dumpArrRest_cons] at hfuel
          simp only [List.length_cons, List.length_append] at hfuel
          omega)
      have harg : ('\n' :: (pad (ind + 2) ++ (dumpVal y (ind + 2) ++ dumpArrRest ys ind))) ++ rest
          = ('\n' :: pad (ind + 2)) ++ (dumpVal y (ind + 2) ++ (dumpArrRest ys ind ++ rest)) := by
        simp
      rw [hval]
      simp only [hskip2, harg, he]
      rfl
termination_by x xs ind fuel rest w hw hfuel => sizeOf x + sizeOf xs

theorem rt_members : ∀ (k : String) (v : Json) (kvs : List (String × Json)) (ind fuel : Nat)
      (rest w : List Char),
    (∀ c ∈ w, isWsCh c = true) →
    (dumpMember k v (ind + 2)).length + (dumpObjRest kvs ind).length < fuel →
    parseMembers fuel (w ++ (dumpMember k v (ind + 2) ++ (dumpObjRest kvs ind ++ rest)))
      = some ((k, v) :: kvs, rest)
  | k, v, [], ind, fuel, rest, w, hw, hfuel => by
    cases fuel with
    | zero => exact absurd hfuel (Nat.not_lt_zero _)
    | succ g =>
      rw [parseMembers_ws g w hw]
      rw [show dumpMember k v (ind + 2) ++ (dumpObjRest [] ind ++ rest)
            = '\x22' :: ((escList k.data ++ ('\x22' :: ':' :: ' ' :: dumpVal v (ind + 2)))
                ++ (dumpObjRest [] ind ++ rest))
            from by rw [dumpMember_eq, List.cons_append]]
      rw [parseMembers_quote]
      have hstr : parseStrRest
          ((escList k.data ++ ('\x22' :: ':' :: ' ' :: dumpVal v (ind + 2)))
            ++ (dumpObjRest [] ind ++ rest))
          = some (k.data, ':' :: ' ' :: (dumpVal v (ind + 2) ++ (dumpObjRest [] ind ++ rest))) := by
        rw [show (escList k.data ++ ('\x22' :: ':' :: ' ' :: dumpVal v (ind + 2)))
              ++ (dumpObjRest [] ind ++ rest)
              = escList k.data
                ++ '\x22' :: (':' :: ' ' :: (dumpVal v (ind + 2) ++ (dumpObjRest [] ind ++ rest)))
              from by simp]
        exact parseStrRest_escList k.data _
      have hcol : skipWs (':' :: ' ' :: (dumpVal v (ind + 2) ++ (dumpObjRest [] ind ++ rest)))
          = ':' :: ' ' :: (dumpVal v (ind + 2) ++ (dumpObjRest [] ind ++ rest)) :=
        skipWs_no (by decide) _
      have hval : parseValue g (' ' :: (dumpVal v (ind + 2) ++ (dumpObjRest [] ind ++ rest)))
          = some (v, dumpObjRest [] ind ++ rest) := by
        rw [← List.singleton_append,
          parseValue_ws_all g [' ']
            (by intro cc hcc; rw [List.mem_singleton] at hcc; subst hcc; decide)]
        refine rt_value v (ind + 2) g _ ?_ (dumpObjRest_head_not_digit [] ind rest)
        rw [dumpMember_eq] at hfuel
        simp only [List.length_cons, List.length_append] at hfuel
        omega
      have hskipd : skipWs (dumpObjRest [] ind ++ rest) = '\x7d' :: rest := by
        rw [dumpObjRest_nil, List.cons_append, ← List.singleton_append,
          skipWs_app ['\n'] (by intro cc hcc; rw [List.mem_singleton] at hcc; subst hcc; decide),
          List.append_assoc, List.singleton_append,
          skipWs_app (pad ind) (pad_ws ind)]
        exact skipWs_no (by decide) rest
      simp only [hstr, hcol, hval, hskipd]
  | k, v, (k2, v2) :: ys, ind, fuel, rest, w, hw, hfuel => by
    cases fuel with
    | zero => exact absurd hfuel (Nat.not_lt_zero _)
    | succ g =>
      rw [parseMembers_ws g w hw]
      rw [show dumpMember k v (ind + 2) ++ (dumpObjRest ((k2, v2) :: ys) ind ++ rest)
            = '\x22' :: ((escList k.data ++ ('\x22' :: ':' :: ' ' :: dumpVal v (ind + 2)))
                ++ (dumpObjRest ((k2, v2) :: ys) ind ++ rest))
            from by rw [dumpMember_eq, List.cons_append]]
      rw [parseMembers_quote]
      have hstr : parseStrRest
          ((escList k.data ++ ('\x22' :: ':' :: ' ' :: dumpVal v (ind + 2)))
            ++ (dumpObjRest ((k2, v2) :: ys) ind ++ rest))
          = some (k.data,
              ':' :: ' ' :: (dumpVal v (ind + 2) ++ (dumpObjRest ((k2, v2) :: ys) ind ++ rest))) := by
        rw [show (escList k.data ++ ('\x22' :: ':' :: ' ' :: dumpVal v (ind + 2)))
              ++ (dumpObjRest ((k2, v2) :: ys) ind ++ rest)
              = escList k.data
                ++ '\x22' :: (':' :: ' '
                  :: (dumpVal v (ind + 2) ++ (dumpObjRest ((k2, v2) :: ys) ind ++ rest)))
              from by simp]
        exact parseStrRest_escList k.data _
      have hcol : skipWs
          (':' :: ' ' :: (dumpVal v (ind + 2) ++ (dumpObjRest ((k2, v2) :: ys) ind ++ rest)))
          = ':' :: ' ' :: (dumpVal v (ind + 2) ++ (dumpObjRest ((k2, v2) :: ys) ind ++ rest)) :=
        skipWs_no (by decide) _
      have hval : parseValue g
          (' ' :: (dumpVal v (ind + 2) ++ (dumpObjRest ((k2, v2) :: ys) ind ++ rest)))
          = some (v, dumpObjRest ((k2, v2) :: ys) ind ++ rest) := by
        rw [← List.singleton_append,
          parseValue_ws_all g [' ']
            (by intro cc hcc; rw [List.mem_singleton] at hcc; subst hcc; decide)]
        refine rt_value v (ind + 2) g _ ?_
          (dumpObjRest_head_not_digit ((k2, v2) :: ys) ind rest)
        rw [dumpMember_eq] at hfuel
        simp only [List.length_cons, List.length_append] at hfuel
        omega
      have hskip2 : skipWs (dumpObjRest ((k2, v2) :: ys) ind ++ rest)
          = ',' :: (('\n' :: (pad (ind + 2) ++ (dumpMember k2 v2 (ind + 2) ++ dumpObjRest ys ind))) ++ rest) := by
        rw [dumpObjRest_cons, List.cons_append]
        exact skipWs_no (by decide) _
      have hm := rt_members k2 v2 ys ind g rest ('\n' :: pad (ind + 2))
        (by
          intro cc hcc
          rcases List.mem_cons.mp hcc with h | h
          · subst h; decide
          · exact pad_ws _ cc h)
        (by
          rw [dumpObjRest_cons] at hfuel
          simp only [List.length_cons, List.length_append] at hfuel
          omega)
      have harg : ('\n' :: (pad (ind + 2) ++ (dumpMember k2 v2 (ind + 2) ++ dumpObjRest ys ind))) ++ rest
          = ('\n' :: pad (ind + 2)) ++ (dumpMember k2 v2 (ind + 2) ++ (dumpObjRest ys ind ++ rest)) := by
        simp
      simp only [hstr, hcol, hval, hskip2, harg, hm]
      rfl
termination_by k v kvs ind fuel rest w hw hfuel => sizeOf v + sizeOf kvs

end

/-- C8: serialization round-trip.  For every JSON value built from
mappings, sequences, strings, numbers, booleans and null, parsing the text
that `save_data` writes (indent 2, non-ASCII characters unescaped) yields a
structurally identical value. -/
theorem claim_C8_save_roundtrip (v : Json) :
    jsonLoad (ApiFetch.save_data v) = some v ∧
    jsonLoad (WriteToAll.save_data v) = some v := by
  have key : jsonLoad (jsonDump v) = some v := by
    unfold jsonLoad jsonDump
    have h := rt_value v 0 ((dumpVal v 0).length + 1) [] (by omega)
      (by intro c hc; rw [List.head?_nil] at hc; cases hc)
    rw [List.append_nil] at h
    rw [h]
    rfl
  exact ⟨key, key⟩
